import Mathlib

/-!
Verification of the GassAgent phase-management engine.

This file gives a shallow embedding of the core data model and operations of
`claude_tools/class/phase_manager.py` and `claude_tools/worker_monitor.py`:
plan documents (individual `<id>.json` files plus the optional aggregate
`phases.json`), status queries, dependency checks, the breakdown-need
detector, the workable-phase finder, the status-update cascade, the
validation/scoring engine, and the worker-activity monitor.  Theorems below
settle the specification claims about these operations.
-/

namespace GassAgent

/-- Duration value of a phase as stored in the plan JSON: absent (or `null` /
`0` / `""`, all falsy in Python), a single integer number of minutes, or a
string range `"lo-hi"`. -/
inductive DurVal where
  | absent
  | single (n : Nat)
  | range (lo hi : Nat)
  deriving DecidableEq, Repr

/-- Priority field of a phase: a JSON string (`"high"|"medium"|"low"|...`) or
a JSON number.  `Option.none` at use sites models an absent field. -/
inductive PriorityVal where
  | pstr (s : String)
  | pnum (n : Nat)
  deriving DecidableEq, Repr

/-- An entry of a document's embedded `phases` list. -/
structure SubPhase where
  id : String
  title : String := ""
  description : String := ""
  duration : DurVal := .absent
  status : Option String := none
  priority : Option PriorityVal := none
  dependencies : List String := []
  deliverables : List String := []
  deriving DecidableEq, Repr

/-- An individual plan document `<id>.json`.  A field modelled as `""` / `[]`
/ `none` corresponds to an absent (or empty, equally falsy) JSON key. -/
structure Doc where
  title : String := ""
  description : String := ""
  status : Option String := none
  phases : List SubPhase := []
  deriving DecidableEq, Repr

/-- The plan store: the `.json` documents of the plan directory keyed by base
filename (the phase id), listed in the sorted order produced by
`get_all_plan_files`.  The aggregate document `phases.json` is the entry
keyed `"phases"`: the code's scan excludes only `index.json`, so the
aggregate participates in full-directory walks exactly like any other file,
and `os.path.exists(plan_dir/f"{pid}.json")` is uniformly `findDoc σ pid`.
(The aggregate's `project` metadata block feeds only the strategic-context
composer, whose output is passed to the validation engine explicitly below,
so it is not modelled here.) -/
structure Store where
  files : List (String × Doc) := []
  deriving DecidableEq, Repr

/-- `os.path.exists`/`load_json` on `<pid>.json`: the first (unique, for a
real filesystem) document with the given id. -/
def findDoc (σ : Store) (pid : String) : Option Doc :=
  (σ.files.find? (fun kv => kv.1 == pid)).map Prod.snd

/-- Whole-document rewrite of `<pid>.json` (`save_json`). -/
def setFile : List (String × Doc) → String → Doc → List (String × Doc)
  | [], _, _ => []
  | (k, v) :: rest, pid, d =>
      if k == pid then (k, d) :: rest else (k, v) :: setFile rest pid d

/-- Store after rewriting `<pid>.json`. -/
def Store.setDoc (σ : Store) (pid : String) (d : Doc) : Store :=
  { σ with files := setFile σ.files pid d }

/-- Split a character list at every character satisfying `p`, keeping empty
groups (Python `str.split(sep)` semantics: the empty input yields one empty
group). -/
def splitOnPred (p : Char → Bool) : List Char → List (List Char)
  | [] => [[]]
  | x :: xs =>
      let r := splitOnPred p xs
      if p x then [] :: r
      else
        match r with
        | [] => [[x]]
        | g :: gs => (x :: g) :: gs

/-- Python `str.split(sep)` for a one-character separator. -/
def splitOnChar (c : Char) : List Char → List (List Char) :=
  splitOnPred (fun x => x == c)

/-- Python `str.split()` with no argument: split on whitespace runs and drop
the empty pieces. -/
def pySplit (s : String) : List String :=
  ((splitOnPred Char.isWhitespace s.data).filter (fun g => !g.isEmpty)).map String.mk

/-- Python `str.lower()` (ASCII inputs; character-wise). -/
def lowerStr (s : String) : String :=
  String.mk (s.data.map Char.toLower)

/-- Contiguous containment of `needle` in a character list. -/
def infixOfB (needle : List Char) : List Char → Bool
  | [] => needle.isEmpty
  | x :: xs => needle.isPrefixOf (x :: xs) || infixOfB needle xs

/-- Python substring containment `needle in haystack`. -/
def strContains (haystack needle : String) : Bool :=
  infixOfB needle.data haystack.data

/-- Python slice `s[:n]`. -/
def strTake (s : String) (n : Nat) : String :=
  String.mk (s.data.take n)

/-- Python `" ".join(...)`. -/
def joinSpace : List String → String
  | [] => ""
  | [x] => x
  | x :: xs => x ++ " " ++ joinSpace xs

/-- `PhaseManager.get_priority_value`: `high/medium/low ↦ 1/2/3`, unknown
strings `↦ 999`, numbers pass through (`priority or 999`, so `0 ↦ 999`),
absent `↦ 999`. -/
def get_priority_value : Option PriorityVal → Nat
  | none => 999
  | some (.pstr s) =>
      if lowerStr s == "high" then 1
      else if lowerStr s == "medium" then 2
      else if lowerStr s == "low" then 3
      else 999
  | some (.pnum n) => if n == 0 then 999 else n

/-- `PhaseManager.needs_breakdown`: falsy durations are not flagged; a range
`"lo-hi"` is flagged iff either bound exceeds 60; a single value iff it
exceeds 60 (an integer `0` is falsy in Python, and `0 ≤ 60`, so the two
readings agree). -/
def needs_breakdown : DurVal → Bool
  | .absent => false
  | .single n => decide (60 < n)
  | .range lo hi => decide (60 < lo) || decide (60 < hi)

/-- `PhaseManager.get_phase_status`: individual document first (missing
`status` key defaults to `"pending"`), then the aggregate `phases.json`,
otherwise `"unknown"`. -/
def get_phase_status (σ : Store) (pid : String) : String :=
  match findDoc σ pid with
  | some d => d.status.getD "pending"
  | none =>
    match findDoc σ "phases" with
    | some pj =>
      match pj.phases.find? (fun p => p.id == pid) with
      | some p => p.status.getD "pending"
      | none => "unknown"
    | none => "unknown"

/-- `PhaseManager.are_dependencies_completed`: vacuously true on the empty
list, else every dependency's status must read `"completed"`. -/
def are_dependencies_completed (σ : Store) (deps : List String) : Bool :=
  deps.all (fun dep => get_phase_status σ dep == "completed")

/-- C4: `needs_breakdown d` is true iff `d` is a single value greater than
60, or a range `"lo-hi"` with `max lo hi` greater than 60; and it is false on
falsy/absent durations. -/
theorem needs_breakdown_iff (d : DurVal) :
    (needs_breakdown d = true ↔
      ((∃ n, d = .single n ∧ 60 < n) ∨
        (∃ lo hi, d = .range lo hi ∧ 60 < max lo hi))) ∧
    needs_breakdown .absent = false := by
  refine ⟨?_, rfl⟩
  cases d <;> simp [needs_breakdown, lt_max_iff] <;> aesop

/-- C5: dependency satisfaction is true on the empty set for every store, and
false whenever some listed dependency's status is not `"completed"`
(including unknown ids). -/
theorem are_dependencies_completed_spec (σ : Store) :
    are_dependencies_completed σ [] = true ∧
    ∀ deps x, x ∈ deps → get_phase_status σ x ≠ "completed" →
      are_dependencies_completed σ deps = false := by
  refine ⟨rfl, ?_⟩
  intro deps x hx hne
  have : ¬ deps.all (fun dep => get_phase_status σ dep == "completed") = true := by
    simp only [List.all_eq_true]
    intro h
    exact hne (by simpa using h x hx)
  simpa [are_dependencies_completed] using this

/-- Witness for C5 at a concrete store: the empty store satisfies the empty
dependency set, and a dependency on the unknown id `"9"` fails. -/
theorem are_dependencies_completed_spec_witness :
    are_dependencies_completed { files := [] } [] = true ∧
    are_dependencies_completed { files := [] } ["9"] = false :=
  ⟨(are_dependencies_completed_spec _).1,
    (are_dependencies_completed_spec _).2 ["9"] "9" (by simp) (by decide)⟩

/-- The closed status enumeration accepted by `update_status`. -/
def valid_statuses : List String := ["pending", "in-progress", "completed"]

/-- The write performed by `update_status`'s individual-file branch before
saving: set the document's own status and stamp every embedded sub-phase with
the same status. -/
def stampDoc (s : String) (d : Doc) : Doc :=
  { d with status := some s,
           phases := d.phases.map (fun p => { p with status := some s }) }


/-- `'.'.join(parts[:-1])` over `child_phase_id.split('.')`, or `none` when
there is no parent (at most one dot-separated segment). -/
def parentIdOf (pid : String) : Option String :=
  let parts := splitOnChar '.' pid.data
  if parts.length ≤ 1 then none
  else some (String.mk (List.intercalate ['.'] parts.dropLast))

/-- `PhaseManager.update_parent_status_if_all_children_completed`, fuelled to
make the upward recursion structural (the fuel is irrelevant for every real
store: ids have finitely many dotted segments). -/
def update_parent_status_if_all_children_completed
    (fuel : Nat) (σ : Store) (child : String) : Store :=
  match fuel with
  | 0 => σ
  | fuel + 1 =>
    match parentIdOf child with
    | none => σ
    | some pid =>
      match findDoc σ pid with
      | none => σ
      | some pd =>
        if pd.phases.isEmpty then σ
        else if pd.phases.all (fun c => c.status == some "completed") &&
                !(pd.status == some "completed") then
          update_parent_status_if_all_children_completed fuel
            (σ.setDoc pid { pd with status := some "completed" }) pid
        else σ

/-- Rewrite the status of the first aggregate entry with the given id
(`update_status`'s `phases.json` branch); `none` when no entry matches. -/
def setFirstStatus : List SubPhase → String → String → Option (List SubPhase)
  | [], _, _ => none
  | p :: rest, pid, s =>
      if p.id == pid then some ({ p with status := some s } :: rest)
      else (setFirstStatus rest pid s).map (p :: ·)

/-- `PhaseManager.update_status`, fuelled (the downward recursion follows
embedded sub-phase ids, which a degenerate store could make cyclic; any
sufficiently large fuel reproduces the Python behaviour on acyclic stores).
Returns the new store and the boolean result. -/
def update_status (fuel : Nat) (σ : Store) (pid s : String) : Store × Bool :=
  match fuel with
  | 0 => (σ, false)
  | fuel + 1 =>
    if valid_statuses.contains s then
      match findDoc σ pid with
      | some d =>
        let d' := stampDoc s d
        let σ₁ := σ.setDoc pid d'
        let σ₂ := d'.phases.foldl (fun τ p => (update_status fuel τ p.id s).1) σ₁
        let σ₃ := if s == "completed" then
            update_parent_status_if_all_children_completed fuel σ₂ pid
          else σ₂
        (σ₃, true)
      | none =>
        match findDoc σ "phases" with
        | some pj =>
          match setFirstStatus pj.phases pid s with
          | some ps => (σ.setDoc "phases" { pj with phases := ps }, true)
          | none => (σ, false)
        | none => (σ, false)
    else (σ, false)

/-- C8: an invalid status string is rejected up front: `update_status`
returns `False` and no document is written. -/
theorem update_status_invalid (fuel : Nat) (σ : Store) (pid s : String)
    (hs : s ∉ valid_statuses) :
    update_status fuel σ pid s = (σ, false) := by
  cases fuel with
  | zero => rfl
  | succ n =>
    have hc : valid_statuses.contains s = false := by
      rw [Bool.eq_false_iff]
      intro h
      exact hs (List.mem_of_elem_eq_true h)
    simp only [update_status]
    rw [if_neg (by simp [hc, hs])]

/-- Witness for C8: the status `"done"` is outside the enumeration and is
rejected without touching a concrete one-document store. -/
theorem update_status_invalid_witness :
    update_status 5 { files := [("1", { status := some "pending" })] } "1" "done" =
      ({ files := [("1", { status := some "pending" })] }, false) :=
  update_status_invalid 5 _ "1" "done" (by decide)

/-- The concrete store for the cascade claim: parent `1` embeds children
`1.1` and `1.2` (both pending) and each child also has its own document. -/
def cascadeStore : Store :=
  { files := [
      ("1", { status := some "pending",
              phases := [ { id := "1.1", status := some "pending" },
                          { id := "1.2", status := some "pending" } ] }),
      ("1.1", { status := some "pending" }),
      ("1.2", { status := some "pending" }) ] }

/-- C2 (divergence witness): completing both children through their own
documents succeeds, yet the parent is never auto-promoted — the upward check
reads the parent's embedded copies, which `update_status` never syncs, so
`P.status` stays `"pending"` where the spec demands `"completed"`. -/
theorem update_status_cascade_stale :
    (update_status 9 cascadeStore "1.1" "completed").2 = true ∧
    get_phase_status (update_status 9 cascadeStore "1.1" "completed").1 "1" = "pending" ∧
    (update_status 9 (update_status 9 cascadeStore "1.1" "completed").1 "1.2" "completed").2
      = true ∧
    get_phase_status
      (update_status 9 (update_status 9 cascadeStore "1.1" "completed").1 "1.2" "completed").1
      "1" = "pending" := by
  refine ⟨?_, ?_, ?_, ?_⟩ <;> decide

/-- Lexicographic comparison of character lists (Python string `<=` on the
code points). -/
def listLexLe : List Char → List Char → Bool
  | [], _ => true
  | _ :: _, [] => false
  | x :: xs, y :: ys => if x == y then listLexLe xs ys else decide (x < y)

/-- Python string `<=` (lexicographic on code points). -/
def strLe (a b : String) : Bool :=
  listLexLe a.data b.data

/-- `PhaseManager.is_true_leaf_phase`: a sub-phase is a leaf unless its own
document exists and carries a truthy `phases` list. -/
def is_true_leaf_phase (σ : Store) (sub : SubPhase) : Bool :=
  match findDoc σ sub.id with
  | some d => d.phases.isEmpty
  | none => true

/-- The task record assembled by `get_workable_phases`. -/
structure Task where
  id : String
  title : String
  description : String
  duration : DurVal
  priority : Nat
  parent_id : Option String
  parent_status : Option String
  status : Option String
  dependencies : List String
  deliverables : List String
  deriving DecidableEq, Repr

/-- `PhaseManager.get_workable_phases`: scan every document of the store (the
aggregate included, since the scan excludes only `index.json`), collect the
true-leaf, pending, dependency-satisfied sub-phases of documents with a
truthy title; then the aggregate's entries that are pending with satisfied
dependencies; finally `tasks.sort(key=lambda x: x['priority'])` — a stable
sort by the priority ordinal alone. -/
def get_workable_phases (σ : Store) : List Task :=
  let fromDocs := σ.files.flatMap (fun kv =>
    if kv.2.title == "" then []
    else kv.2.phases.filterMap (fun sub =>
      if is_true_leaf_phase σ sub &&
         are_dependencies_completed σ sub.dependencies &&
         (sub.status == some "pending") then
        some { id := sub.id, title := sub.title, description := sub.description,
               duration := sub.duration,
               priority := get_priority_value sub.priority,
               parent_id := some kv.1, parent_status := kv.2.status,
               status := sub.status, dependencies := sub.dependencies,
               deliverables := sub.deliverables }
      else none))
  let fromAgg := match findDoc σ "phases" with
    | some pj => pj.phases.filterMap (fun p =>
        if are_dependencies_completed σ p.dependencies &&
           (p.status == some "pending") then
          some { id := p.id, title := p.title, description := p.description,
                 duration := p.duration,
                 priority := get_priority_value p.priority,
                 parent_id := none, parent_status := none,
                 status := p.status, dependencies := p.dependencies,
                 deliverables := p.deliverables }
        else none)
    | none => []
  List.insertionSort (fun a b => a.priority ≤ b.priority) (fromDocs ++ fromAgg)

/-- A store on which `get_workable_phases` violates the claimed
`(priority, id)` order: one document embedding two equal-priority pending
leaves listed as `1.2` before `1.1`. -/
def wpStore : Store :=
  { files := [
      ("1", { title := "Phase 1", status := some "pending",
              phases := [ { id := "1.2", title := "B", status := some "pending" },
                          { id := "1.1", title := "A", status := some "pending" } ] })] }

/-- C9 (counterexample): the returned list keeps the scan order `1.2, 1.1`
between equal priorities, so it is not sorted by the key
`(priority ordinal, id)` as claimed. -/
theorem get_workable_phases_not_sorted_by_id :
    (get_workable_phases wpStore).map Task.id = ["1.2", "1.1"] ∧
    (get_workable_phases wpStore).map Task.priority = [999, 999] ∧
    ¬ ((get_workable_phases wpStore).Pairwise
        (fun a b => a.priority < b.priority ∨
          (a.priority = b.priority ∧ strLe a.id b.id = true))) := by
  refine ⟨by decide, by decide, by decide⟩

instance : IsTotal Task (fun a b => a.priority ≤ b.priority) :=
  ⟨fun a b => Nat.le_total a.priority b.priority⟩

instance : IsTrans Task (fun a b => a.priority ≤ b.priority) :=
  ⟨fun _ _ _ hab hbc => Nat.le_trans hab hbc⟩

/-- C9 (amended): the list returned by `get_workable_phases` is sorted by the
priority ordinal alone, ascending (ties keep the scan order: the sort is
stable and no id tie-break exists). -/
theorem get_workable_phases_sorted_by_priority (σ : Store) :
    (get_workable_phases σ).Pairwise (fun a b => a.priority ≤ b.priority) := by
  have h := List.sorted_insertionSort (fun a b : Task => a.priority ≤ b.priority)
  exact h _

/-- The record collected by `find_phases_needing_breakdown` for each flagged
phase. -/
structure BEntry where
  file : String
  phase_id : String
  title : String
  duration : DurVal
  status : String
  deriving DecidableEq, Repr

/-- The parser defaults `parse_phase_data` applies to each embedded entry:
`title` defaults to `"No title"`, `duration` to the string `"0"`, `status` to
`"pending"` (a `""` / `.absent` field models an absent JSON key; the `id`
default `'undefined'` needs no modelling since ids are total strings here). -/
def parsePhaseEntry (p : SubPhase) : SubPhase :=
  { p with
    title := if p.title == "" then "No title" else p.title,
    duration := match p.duration with | .absent => .single 0 | d => d,
    status := some (p.status.getD "pending") }

/-- Python `int(duration)` as used for the sort key: a single value converts,
a range string `"lo-hi"` raises `ValueError` (modelled as `none`). -/
def intOfDurVal : DurVal → Option Nat
  | .single n => some n
  | _ => none

/-- Deduplication by `f"{file}:{phase_id}"` keeping first occurrences. -/
def dedupeEntries (seen : List String) : List BEntry → List BEntry
  | [] => []
  | e :: rest =>
      let key := e.file ++ ":" ++ e.phase_id
      if seen.contains key then dedupeEntries seen rest
      else e :: dedupeEntries (key :: seen) rest

/-- Sort keys `int(x['duration'])` for every entry, left to right; `none` as
soon as one raises (Python computes all keys before sorting, even for a
single-element list). -/
def breakdownSortKeys : List BEntry → Option (List (Nat × BEntry))
  | [] => some []
  | e :: rest =>
    match intOfDurVal e.duration, breakdownSortKeys rest with
    | some k, some ks => some ((k, e) :: ks)
    | _, _ => none

/-- `PhaseManager.find_phases_needing_breakdown`: scan every document (the
aggregate included) and flag each embedded entry that needs breakdown and
has no per-id document; then the aggregate's entries likewise; deduplicate by
`(file, id)`, sort by `int(duration)` descending (stable), truncate to
`limit`.  The whole call raises `ValueError` — modelled as `Except.error` —
whenever a collected duration is a range string, because `int("lo-hi")` is
not parseable. -/
def find_phases_needing_breakdown (σ : Store) (limit : Nat) :
    Except String (List BEntry) :=
  let fromDocs := σ.files.flatMap (fun kv =>
    (kv.2.phases.map parsePhaseEntry).filterMap (fun p =>
      if needs_breakdown p.duration && !(findDoc σ p.id).isSome then
        some { file := kv.1 ++ ".json", phase_id := p.id, title := p.title,
               duration := p.duration, status := p.status.getD "pending" }
      else none))
  let fromAgg := match findDoc σ "phases" with
    | some pj => pj.phases.filterMap (fun p =>
        if !(findDoc σ p.id).isSome && needs_breakdown p.duration then
          some { file := "phases.json", phase_id := p.id, title := p.title,
                 duration := p.duration, status := p.status.getD "pending" }
        else none)
    | none => []
  let uniq := dedupeEntries [] (fromDocs ++ fromAgg)
  match breakdownSortKeys uniq with
  | none => .error "ValueError: invalid literal for int() with base 10"
  | some keyed =>
      .ok (((List.insertionSort (fun a b => b.1 ≤ a.1) keyed).map Prod.snd).take limit)

/-- A store with one over-long range-duration phase: flagged by
`needs_breakdown`, but the sort key `int("50-90")` raises. -/
def rangeStore : Store :=
  { files := [
      ("1", { title := "Phase 1",
              phases := [ { id := "1.1", title := "Range Phase",
                            duration := .range 50 90,
                            status := some "pending" } ] })] }

/-- C3 (divergence witness): the range phase `1.1` legitimately needs
breakdown and has no per-id document, yet `find_phases_needing_breakdown`
raises `ValueError` from its descending-duration sort key instead of
returning the entry list. -/
theorem find_phases_needing_breakdown_range_raises :
    needs_breakdown (.range 50 90) = true ∧
    (findDoc rangeStore "1.1").isSome = false ∧
    find_phases_needing_breakdown rangeStore 10 =
      .error "ValueError: invalid literal for int() with base 10" := by
  refine ⟨by decide, by decide, by rfl⟩

/-- A store on which `update_status` is not idempotent.  The file
`phases.2.json` makes the aggregate document the cascade parent of a file
child, while the embedded child `phases.1` (no own file) is completed through
the aggregate branch — after the cascade check already ran.  The second
identical call then finds all aggregate entries completed and promotes the
aggregate document. -/
def nonIdemStore : Store :=
  { files := [
      ("1", { status := some "pending",
              phases := [ { id := "phases.2", status := some "pending" },
                          { id := "phases.1", status := some "pending" } ] }),
      ("phases.2", { status := some "pending" }),
      ("phases", { status := some "pending",
                   phases := [ { id := "phases.1", status := some "pending" } ] })] }

/-- C7 (counterexample): `update_status("1", "completed")` called twice on
`nonIdemStore` does not leave the same on-disk state as calling it once —
the second call auto-promotes `phases.json`. -/
theorem update_status_not_idempotent_cex :
    (findDoc nonIdemStore "1").isSome = true ∧
    "completed" ∈ valid_statuses ∧
    (update_status 9 (update_status 9 nonIdemStore "1" "completed").1
        "1" "completed").1 ≠
      (update_status 9 nonIdemStore "1" "completed").1 := by
  refine ⟨by decide, by decide, by decide⟩

/-- Lookup after a rewrite: the rewritten key reads the new document (when it
exists), every other key is untouched. -/
theorem findDoc_setDoc (σ : Store) (k : String) (v : Doc) (pid : String) :
    findDoc (σ.setDoc k v) pid =
      if pid = k then (findDoc σ k).map (fun _ => v) else findDoc σ pid := by
  rcases σ with ⟨l⟩
  show ((setFile l k v).find? _).map Prod.snd = _
  induction l with
  | nil =>
    by_cases h : pid = k <;> simp [setFile, findDoc, h]
  | cons hd tl ih =>
    obtain ⟨a, w⟩ := hd
    by_cases hak : a = k
    · subst hak
      have e1 : (a == a) = true := by simp
      by_cases hpk : pid = a
      · subst hpk
        simp [setFile, findDoc, List.find?, e1]
      · have e2 : (a == pid) = false := by
          simp only [beq_eq_false_iff_ne]
          exact fun h => hpk h.symm
        simp [setFile, findDoc, List.find?, e1, e2, hpk]
    · have e2 : (a == k) = false := by
        simp only [beq_eq_false_iff_ne]
        exact hak
      by_cases hpa : pid = a
      · subst hpa
        have e3 : (pid == pid) = true := by simp
        have hne : pid ≠ k := hak
        simp [setFile, findDoc, List.find?, e2, e3, hne]
      · have e3 : (a == pid) = false := by
          simp only [beq_eq_false_iff_ne]
          exact fun h => hpa h.symm
        simp only [setFile, e2, Bool.false_eq_true, if_false, List.find?, e3]
        rw [ih]
        by_cases hpk : pid = k
        · subst hpk
          simp [findDoc, List.find?, e2]
        · simp [findDoc, List.find?, e3, hpk]

/-- Rewriting a document with the value it already holds is a no-op. -/
theorem setDoc_self (σ : Store) (k : String) (v : Doc)
    (h : findDoc σ k = some v) : σ.setDoc k v = σ := by
  rcases σ with ⟨l⟩
  show Store.mk (setFile l k v) = Store.mk l
  congr 1
  induction l with
  | nil => rfl
  | cons hd tl ih =>
    obtain ⟨a, w⟩ := hd
    by_cases hak : a = k
    · subst hak
      have : w = v := by
        simpa [findDoc, List.find?] using h
      simp [setFile, this]
    · have hak' : (a == k) = false := by simp [beq_iff_eq, hak]
      have h' : findDoc ⟨tl⟩ k = some v := by
        simpa [findDoc, List.find?, hak'] using h
      simp [setFile, hak', ih h']

/-- Rewrites never change the key listing of the store. -/
theorem setDoc_keys (σ : Store) (k : String) (v : Doc) :
    (σ.setDoc k v).files.map Prod.fst = σ.files.map Prod.fst := by
  rcases σ with ⟨l⟩
  show (setFile l k v).map Prod.fst = l.map Prod.fst
  induction l with
  | nil => rfl
  | cons hd tl ih =>
    obtain ⟨a, w⟩ := hd
    by_cases hak : a = k
    · subst hak; simp [setFile]
    · have hak' : (a == k) = false := by simp [beq_iff_eq, hak]
      simp [setFile, hak', ih]

/-- Present keys are listed keys. -/
theorem findDoc_isSome_mem (σ : Store) (pid : String)
    (h : (findDoc σ pid).isSome = true) : pid ∈ σ.files.map Prod.fst := by
  rcases σ with ⟨l⟩
  induction l with
  | nil => simp [findDoc] at h
  | cons hd tl ih =>
    obtain ⟨a, w⟩ := hd
    by_cases hpa : a = pid
    · subst hpa; simp
    · have hpa' : (a == pid) = false := by simp [beq_iff_eq, hpa]
      have h' : (findDoc ⟨tl⟩ pid).isSome = true := by
        simpa [findDoc, List.find?, hpa'] using h
      simpa using Or.inr (by simpa using ih h')

/-- The store wellformedness under which idempotence holds: no document's
base filename resolves the aggregate name `phases` as its dotted parent
(ids like `phases.2` as their own documents are what break it). -/
def GoodKeys (σ : Store) : Prop :=
  ∀ k ∈ σ.files.map Prod.fst, parentIdOf k ≠ some "phases"

/-- A document whose own status and embedded statuses all read `s`. -/
def IsStamped (s : String) (d : Doc) : Prop :=
  d.status = some s ∧ ∀ p ∈ d.phases, p.status = some s

/-- Stamping yields a stamped document. -/
theorem isStamped_stampDoc (s : String) (d : Doc) : IsStamped s (stampDoc s d) := by
  constructor
  · rfl
  · intro p hp
    simp only [stampDoc, List.mem_map] at hp
    obtain ⟨q, _, rfl⟩ := hp
    rfl

/-- Re-stamping entries that already read `s` changes nothing. -/
theorem stampList_of_allS (s : String) (l : List SubPhase)
    (h : ∀ p ∈ l, p.status = some s) :
    l.map (fun p => { p with status := some s }) = l := by
  induction l with
  | nil => rfl
  | cons p rest ih =>
    have hp : p.status = some s := h p (by simp)
    have hr := ih (fun q hq => h q (by simp [hq]))
    rcases p with ⟨i, ti, de, du, st, pr, dep, del⟩
    simp only [List.map_cons, hr, List.cons.injEq, and_true]
    simp only [SubPhase.status] at hp
    simp [hp]

/-- Stamping a stamped document changes nothing. -/
theorem stampDoc_of_isStamped (s : String) (d : Doc) (h : IsStamped s d) :
    stampDoc s d = d := by
  obtain ⟨h1, h2⟩ := h
  rcases d with ⟨t, de, st, ph⟩
  simp only [Doc.status] at h1
  simp only [Doc.phases] at h2
  simp [stampDoc, h1, stampList_of_allS s ph h2]

/-- Stamping preserves the embedded id listing. -/
theorem stampDoc_ids (s : String) (d : Doc) :
    (stampDoc s d).phases.map SubPhase.id = d.phases.map SubPhase.id := by
  simp [stampDoc]

/-- The abstract writes `update_status` performs for a fixed new status `s`:
stamping a document, promoting a document's own status to `completed` (the
cascade writes only under `s = "completed"`), or setting one aggregate entry
to `s`.  `Evolve s σ τ` says `τ` is reachable from `σ` by such writes — in
particular, every state later in a run is `Evolve`-reachable from any
earlier one. -/
inductive Evolve (s : String) : Store → Store → Prop where
  | refl (σ) : Evolve s σ σ
  | stamp (σ τ : Store) (pid : String) (d : Doc) :
      findDoc σ pid = some d →
      Evolve s (σ.setDoc pid (stampDoc s d)) τ → Evolve s σ τ
  | promote (σ τ : Store) (pid : String) (d : Doc) :
      s = "completed" → findDoc σ pid = some d →
      Evolve s (σ.setDoc pid { d with status := some "completed" }) τ →
      Evolve s σ τ
  | aggset (σ τ : Store) (x : String) (pj : Doc) (ps : List SubPhase) :
      findDoc σ "phases" = some pj →
      setFirstStatus pj.phases x s = some ps →
      Evolve s (σ.setDoc "phases" { pj with phases := ps }) τ → Evolve s σ τ

/-- Reachability composes. -/
theorem Evolve.trans {s : String} {σ τ ρ : Store}
    (h1 : Evolve s σ τ) (h2 : Evolve s τ ρ) : Evolve s σ ρ := by
  induction h1 with
  | refl => exact h2
  | stamp σ' τ' pid d hd _ ih => exact .stamp σ' ρ pid d hd (ih h2)
  | promote σ' τ' pid d hs hd _ ih => exact .promote σ' ρ pid d hs hd (ih h2)
  | aggset σ' τ' x pj ps hd hset _ ih => exact .aggset σ' ρ x pj ps hd hset (ih h2)

/-- Unfolding: `update_status` with no fuel. -/
theorem update_status_zero (σ : Store) (pid s : String) :
    update_status 0 σ pid s = (σ, false) := rfl

/-- Unfolding: `update_parent_status_if_all_children_completed` with no
fuel. -/
theorem update_parent_zero (σ : Store) (child : String) :
    update_parent_status_if_all_children_completed 0 σ child = σ := rfl

/-- Unfolding: no dotted parent, no cascade write. -/
theorem update_parent_succ_none (fuel : Nat) (σ : Store) (child : String)
    (h : parentIdOf child = none) :
    update_parent_status_if_all_children_completed (fuel + 1) σ child = σ := by
  simp [update_parent_status_if_all_children_completed, h]

/-- Unfolding: parent id without a document, no cascade write. -/
theorem update_parent_succ_nodoc (fuel : Nat) (σ : Store) (child pid : String)
    (h : parentIdOf child = some pid) (hd : findDoc σ pid = none) :
    update_parent_status_if_all_children_completed (fuel + 1) σ child = σ := by
  simp [update_parent_status_if_all_children_completed, h, hd]

/-- Unfolding: parent document present. -/
theorem update_parent_succ_doc (fuel : Nat) (σ : Store) (child pid : String)
    (pd : Doc) (h : parentIdOf child = some pid) (hd : findDoc σ pid = some pd) :
    update_parent_status_if_all_children_completed (fuel + 1) σ child =
      (if pd.phases.isEmpty then σ
       else if pd.phases.all (fun c => c.status == some "completed") &&
              !(pd.status == some "completed") then
         update_parent_status_if_all_children_completed fuel
           (σ.setDoc pid { pd with status := some "completed" }) pid
       else σ) := by
  simp [update_parent_status_if_all_children_completed, h, hd]

/-- Unfolding: invalid status, rejected with no write. -/
theorem update_status_succ_invalid (fuel : Nat) (σ : Store) (pid s : String)
    (h : s ∉ valid_statuses) :
    update_status (fuel + 1) σ pid s = (σ, false) := by
  simp [update_status, h]

/-- Unfolding: individual-document branch. -/
theorem update_status_succ_doc (fuel : Nat) (σ : Store) (pid s : String)
    (d : Doc) (hv : s ∈ valid_statuses)
    (hd : findDoc σ pid = some d) :
    update_status (fuel + 1) σ pid s =
      ((if s == "completed" then
          update_parent_status_if_all_children_completed fuel
            ((stampDoc s d).phases.foldl
              (fun τ p => (update_status fuel τ p.id s).1)
              (σ.setDoc pid (stampDoc s d))) pid
        else
          (stampDoc s d).phases.foldl
            (fun τ p => (update_status fuel τ p.id s).1)
            (σ.setDoc pid (stampDoc s d))), true) := by
  simp [update_status, hv, hd]

/-- Unfolding: aggregate branch with a matching entry. -/
theorem update_status_succ_agg (fuel : Nat) (σ : Store) (pid s : String)
    (pj : Doc) (ps : List SubPhase) (hv : s ∈ valid_statuses)
    (hd : findDoc σ pid = none) (hagg : findDoc σ "phases" = some pj)
    (hset : setFirstStatus pj.phases pid s = some ps) :
    update_status (fuel + 1) σ pid s =
      (σ.setDoc "phases" { pj with phases := ps }, true) := by
  simp [update_status, hv, hd, hagg, hset]

/-- Unfolding: aggregate branch without a matching entry. -/
theorem update_status_succ_aggmiss (fuel : Nat) (σ : Store) (pid s : String)
    (pj : Doc) (hv : s ∈ valid_statuses)
    (hd : findDoc σ pid = none) (hagg : findDoc σ "phases" = some pj)
    (hset : setFirstStatus pj.phases pid s = none) :
    update_status (fuel + 1) σ pid s = (σ, false) := by
  simp [update_status, hv, hd, hagg, hset]

/-- Unfolding: no document and no aggregate. -/
theorem update_status_succ_noagg (fuel : Nat) (σ : Store) (pid s : String)
    (hv : s ∈ valid_statuses) (hd : findDoc σ pid = none)
    (hagg : findDoc σ "phases" = none) :
    update_status (fuel + 1) σ pid s = (σ, false) := by
  simp [update_status, hv, hd, hagg]

/-- The cascade only performs `Evolve` writes. -/
theorem evolve_update_parent (s : String) (hs : s = "completed") :
    ∀ (fuel : Nat) (σ : Store) (child : String),
      Evolve s σ (update_parent_status_if_all_children_completed fuel σ child) := by
  intro fuel
  induction fuel with
  | zero => intro σ child; exact .refl σ
  | succ n ih =>
    intro σ child
    cases hp : parentIdOf child with
    | none => rw [update_parent_succ_none n σ child hp]; exact .refl σ
    | some pid =>
      cases hd : findDoc σ pid with
      | none => rw [update_parent_succ_nodoc n σ child pid hp hd]; exact .refl σ
      | some pd =>
        rw [update_parent_succ_doc n σ child pid pd hp hd]
        by_cases he : pd.phases.isEmpty = true
        · rw [if_pos he]; exact .refl σ
        · rw [if_neg (by simp [he])]
          by_cases hg : (pd.phases.all (fun c => c.status == some "completed") &&
              !(pd.status == some "completed")) = true
          · rw [if_pos hg]
            exact .promote σ _ pid pd hs hd (ih _ pid)
          · rw [if_neg (by simp only [hg]; exact Bool.false_ne_true)]
            exact .refl σ

/-- A whole `update_status` run only performs `Evolve` writes. -/
theorem evolve_update_status (s : String) :
    ∀ (fuel : Nat) (σ : Store) (pid : String),
      Evolve s σ (update_status fuel σ pid s).1 := by
  intro fuel
  induction fuel with
  | zero => intro σ pid; exact .refl σ
  | succ n ih =>
    intro σ pid
    by_cases hv : s ∈ valid_statuses
    · cases hd : findDoc σ pid with
      | some d =>
        rw [update_status_succ_doc n σ pid s d hv hd]
        have hfold : ∀ (l : List SubPhase) (τ : Store),
            Evolve s τ (l.foldl (fun ρ p => (update_status n ρ p.id s).1) τ) := by
          intro l
          induction l with
          | nil => intro τ; exact .refl τ
          | cons p rest ihl =>
            intro τ
            exact (ih τ p.id).trans (ihl _)
        have h1 : Evolve s σ (σ.setDoc pid (stampDoc s d)) :=
          .stamp σ _ pid d hd (.refl _)
        by_cases hc : (s == "completed") = true
        · have hs : s = "completed" := by simpa using hc
          simp only [hc, if_true]
          exact h1.trans ((hfold _ _).trans (evolve_update_parent s hs n _ pid))
        · simp only [hc, Bool.false_eq_true, if_false]
          exact h1.trans (hfold _ _)
      | none =>
        cases hagg : findDoc σ "phases" with
        | some pj =>
          cases hset : setFirstStatus pj.phases pid s with
          | some ps =>
            rw [update_status_succ_agg n σ pid s pj ps hv hd hagg hset]
            exact .aggset σ _ pid pj ps hagg hset (.refl _)
          | none =>
            rw [update_status_succ_aggmiss n σ pid s pj hv hd hagg hset]
            exact .refl σ
        | none =>
          rw [update_status_succ_noagg n σ pid s hv hd hagg]
          exact .refl σ
    · rw [update_status_succ_invalid n σ pid s hv]
      exact .refl σ

/-- Setting a sub-phase's status to the value it already holds changes
nothing. -/
theorem subPhase_set_status_self (p : SubPhase) (s : String)
    (h : p.status = some s) : { p with status := some s } = p := by
  rcases p with ⟨i, ti, de, du, st, pr, dep, del⟩
  simp only [SubPhase.status] at h
  simp [h]

/-- The aggregate-entry write preserves the id listing. -/
theorem setFirstStatus_ids (x s : String) :
    ∀ (l l' : List SubPhase), setFirstStatus l x s = some l' →
      l'.map SubPhase.id = l.map SubPhase.id := by
  intro l
  induction l with
  | nil => intro l' h; simp [setFirstStatus] at h
  | cons p rest ih =>
    intro l' h
    by_cases hpx : (p.id == x) = true
    · simp only [setFirstStatus, hpx, if_true, Option.some.injEq] at h
      subst h
      simp
    · simp only [setFirstStatus, hpx, Bool.false_eq_true, if_false] at h
      cases hr : setFirstStatus rest x s with
      | none => rw [hr] at h; simp at h
      | some m =>
        rw [hr] at h
        simp only [Option.map_some', Option.some.injEq] at h
        subst h
        simp [ih m hr]

/-- Every entry of the written list either reads `s` or was already there. -/
theorem setFirstStatus_mem (x s : String) :
    ∀ (l l' : List SubPhase), setFirstStatus l x s = some l' →
      ∀ p' ∈ l', p'.status = some s ∨ p' ∈ l := by
  intro l
  induction l with
  | nil => intro l' h; simp [setFirstStatus] at h
  | cons p rest ih =>
    intro l' h
    by_cases hpx : (p.id == x) = true
    · simp only [setFirstStatus, hpx, if_true, Option.some.injEq] at h
      subst h
      intro p' hp'
      rcases List.mem_cons.mp hp' with h1 | h1
      · subst h1; left; rfl
      · right; exact List.mem_cons_of_mem _ h1
    · simp only [setFirstStatus, hpx, Bool.false_eq_true, if_false] at h
      cases hr : setFirstStatus rest x s with
      | none => rw [hr] at h; simp at h
      | some m =>
        rw [hr] at h
        simp only [Option.map_some', Option.some.injEq] at h
        subst h
        intro p' hp'
        rcases List.mem_cons.mp hp' with h1 | h1
        · subst h1; right; exact List.mem_cons_self _ _
        · rcases ih m hr p' h1 with h2 | h2
          · left; exact h2
          · right; exact List.mem_cons_of_mem _ h2

/-- Re-applying the aggregate-entry write is the identity. -/
theorem setFirstStatus_idem (x s : String) :
    ∀ (l l' : List SubPhase), setFirstStatus l x s = some l' →
      setFirstStatus l' x s = some l' := by
  intro l
  induction l with
  | nil => intro l' h; simp [setFirstStatus] at h
  | cons p rest ih =>
    intro l' h
    by_cases hpx : (p.id == x) = true
    · simp only [setFirstStatus, hpx, if_true, Option.some.injEq] at h
      subst h
      simp [setFirstStatus, hpx]
    · simp only [setFirstStatus, hpx, Bool.false_eq_true, if_false] at h
      cases hr : setFirstStatus rest x s with
      | none => rw [hr] at h; simp at h
      | some m =>
        rw [hr] at h
        simp only [Option.map_some', Option.some.injEq] at h
        subst h
        simp [setFirstStatus, hpx, ih m hr]

/-- Whether the aggregate-entry write succeeds depends only on the ids. -/
theorem setFirstStatus_isSome (x s : String) :
    ∀ (l : List SubPhase),
      (setFirstStatus l x s).isSome = l.any (fun p => p.id == x) := by
  intro l
  induction l with
  | nil => simp [setFirstStatus]
  | cons p rest ih =>
    by_cases hpx : (p.id == x) = true
    · simp [setFirstStatus, hpx]
    · simp only [setFirstStatus, hpx, Bool.false_eq_true, if_false, List.any_cons,
        Bool.false_or]
      cases hr : setFirstStatus rest x s with
      | none => simp only [hr] at ih; simpa using ih
      | some m => simp only [hr] at ih; simpa using ih

/-- When the target entry exists and every entry already reads `s`, the
aggregate-entry write is the identity. -/
theorem setFirstStatus_of_allS (x s : String) :
    ∀ (l : List SubPhase), (setFirstStatus l x s).isSome = true →
      (∀ p ∈ l, p.status = some s) → setFirstStatus l x s = some l := by
  intro l
  induction l with
  | nil => intro h; simp [setFirstStatus] at h
  | cons p rest ih =>
    intro hex hall
    by_cases hpx : (p.id == x) = true
    · simp [setFirstStatus, hpx, subPhase_set_status_self p s (hall p (by simp))]
    · have hex' : (setFirstStatus rest x s).isSome = true := by
        simpa [setFirstStatus, hpx] using hex
      have := ih hex' (fun q hq => hall q (by simp [hq]))
      simp [setFirstStatus, hpx, this]

/-- Unfolding of the aggregate-entry write on a non-matching head. -/
theorem setFirstStatus_cons_false (p : SubPhase) (rest : List SubPhase)
    (x s : String) (h : (p.id == x) = false) :
    setFirstStatus (p :: rest) x s = (setFirstStatus rest x s).map (p :: ·) := by
  simp [setFirstStatus, h]

/-- Unfolding of the aggregate-entry write on a matching head. -/
theorem setFirstStatus_cons_true (p : SubPhase) (rest : List SubPhase)
    (x s : String) (h : (p.id == x) = true) :
    setFirstStatus (p :: rest) x s = some ({ p with status := some s } :: rest) := by
  simp [setFirstStatus, h]

/-- Inverting a mapped cons. -/
theorem optionMapCons (o : Option (List SubPhase)) (p : SubPhase)
    (l : List SubPhase) (h : o.map (p :: ·) = some (p :: l)) : o = some l := by
  cases o with
  | none => simp at h
  | some m => simp_all

/-- An identity write on a non-matching head forces an identity write on the
tail. -/
theorem setFirstStatus_tail_self (p : SubPhase) (rest : List SubPhase)
    (x s : String) (hpx : (p.id == x) = false)
    (h : setFirstStatus (p :: rest) x s = some (p :: rest)) :
    setFirstStatus rest x s = some rest := by
  rw [setFirstStatus_cons_false p rest x s hpx] at h
  exact optionMapCons _ p rest h

/-- An identity write on a matching head means the head already reads `s`. -/
theorem setFirstStatus_head_self (p : SubPhase) (rest : List SubPhase)
    (x s : String) (hpx : (p.id == x) = true)
    (h : setFirstStatus (p :: rest) x s = some (p :: rest)) :
    { p with status := some s } = p := by
  rw [setFirstStatus_cons_true p rest x s hpx] at h
  exact (List.cons.injEq _ _ _ _ ▸ (Option.some.injEq _ _ ▸ h :
    ({ p with status := some s } :: rest) = p :: rest) : _ ∧ _).1

/-- A later aggregate-entry write does not disturb an identity write. -/
theorem setFirstStatus_pass (x y s : String) :
    ∀ (l m : List SubPhase), setFirstStatus l x s = some l →
      setFirstStatus l y s = some m → setFirstStatus m x s = some m := by
  intro l
  induction l with
  | nil => intro m h1 h2; simp [setFirstStatus] at h2
  | cons p rest ih =>
    intro m h1 h2
    by_cases hpy : (p.id == y) = true
    · rw [setFirstStatus_cons_true p rest y s hpy] at h2
      rw [Option.some.injEq] at h2
      subst h2
      by_cases hpx : (p.id == x) = true
      · have hqx : (({ p with status := some s } : SubPhase).id == x) = true := hpx
        rw [setFirstStatus_cons_true _ _ x s hqx]
      · have hpx' : (p.id == x) = false := by
          cases hx : (p.id == x)
          · rfl
          · exact absurd hx hpx
        have htail := setFirstStatus_tail_self p rest x s hpx' h1
        have hqx : (({ p with status := some s } : SubPhase).id == x) = false := hpx'
        rw [setFirstStatus_cons_false _ _ x s hqx, htail]
        rfl
    · have hpy' : (p.id == y) = false := by
        cases hy : (p.id == y)
        · rfl
        · exact absurd hy hpy
      rw [setFirstStatus_cons_false p rest y s hpy'] at h2
      cases hry : setFirstStatus rest y s with
      | none => rw [hry] at h2; simp at h2
      | some m' =>
        rw [hry] at h2
        rw [Option.map_some', Option.some.injEq] at h2
        subst h2
        by_cases hpx : (p.id == x) = true
        · have hps := setFirstStatus_head_self p rest x s hpx h1
          rw [setFirstStatus_cons_true p m' x s hpx, hps]
        · have hpx' : (p.id == x) = false := by
            cases hx : (p.id == x)
            · rfl
            · exact absurd hx hpx
          have htail := setFirstStatus_tail_self p rest x s hpx' h1
          rw [setFirstStatus_cons_false p m' x s hpx', ih m' htail hry]
          rfl

/-- The abstract writes never change a document's embedded id listing (nor
which documents exist). -/
theorem Evolve.docIds {s : String} {σ τ : Store} (h : Evolve s σ τ)
    (pid : String) :
    (findDoc τ pid).map (fun d => d.phases.map SubPhase.id) =
      (findDoc σ pid).map (fun d => d.phases.map SubPhase.id) := by
  induction h with
  | refl => rfl
  | stamp σ' τ' k dk hdk hnext ih =>
    rw [ih, findDoc_setDoc]
    by_cases hk : pid = k
    · subst hk
      rw [hdk, if_pos rfl]
      simp [stampDoc_ids]
    · rw [if_neg hk]
  | promote σ' τ' k dk hs hdk hnext ih =>
    rw [ih, findDoc_setDoc]
    by_cases hk : pid = k
    · subst hk
      rw [hdk, if_pos rfl]
      simp
    · rw [if_neg hk]
  | aggset σ' τ' x pj ps hpj hset hnext ih =>
    rw [ih, findDoc_setDoc]
    by_cases hk : pid = "phases"
    · subst hk
      rw [hpj, if_pos rfl]
      simp [setFirstStatus_ids x s pj.phases ps hset]
    · rw [if_neg hk]

/-- Documents neither appear nor disappear along the abstract writes. -/
theorem Evolve.findDoc_isSome {s : String} {σ τ : Store} (h : Evolve s σ τ)
    (pid : String) :
    (findDoc τ pid).isSome = (findDoc σ pid).isSome := by
  have hids := h.docIds pid
  cases hσ : findDoc σ pid <;> cases hτ : findDoc τ pid <;> simp_all

/-- A fully stamped document stays fully stamped. -/
theorem Evolve.stamped {s : String} {σ τ : Store} (h : Evolve s σ τ)
    (pid : String) :
    ∀ d, findDoc σ pid = some d → IsStamped s d →
      ∃ d', findDoc τ pid = some d' ∧ IsStamped s d' := by
  induction h with
  | refl => exact fun d hd hs => ⟨d, hd, hs⟩
  | stamp σ' τ' k dk hdk hnext ih =>
    intro d hd hs
    by_cases hk : pid = k
    · subst hk
      exact ih (stampDoc s dk)
        (by rw [findDoc_setDoc, hdk, if_pos rfl]; rfl)
        (isStamped_stampDoc s dk)
    · exact ih d (by rw [findDoc_setDoc, if_neg hk]; exact hd) hs
  | promote σ' τ' k dk hcs hdk hnext ih =>
    intro d hd hs
    by_cases hk : pid = k
    · subst hk
      have hdd : dk = d := by rw [hd] at hdk; exact (Option.some.inj hdk).symm
      subst hdd
      refine ih { dk with status := some "completed" }
        (by rw [findDoc_setDoc, hdk, if_pos rfl]; rfl) ⟨?_, hs.2⟩
      show some "completed" = some s
      rw [hcs]
    · exact ih d (by rw [findDoc_setDoc, if_neg hk]; exact hd) hs
  | aggset σ' τ' x pj ps hpj hset hnext ih =>
    intro d hd hs
    by_cases hk : pid = "phases"
    · subst hk
      have hdd : pj = d := by rw [hd] at hpj; exact (Option.some.inj hpj).symm
      subst hdd
      refine ih { pj with phases := ps }
        (by rw [findDoc_setDoc, hd, if_pos rfl]; rfl) ⟨hs.1, ?_⟩
      intro p' hp'
      rcases setFirstStatus_mem x s pj.phases ps hset p' hp' with h1 | h1
      · exact h1
      · exact hs.2 p' h1
    · exact ih d (by rw [findDoc_setDoc, if_neg hk]; exact hd) hs

/-- A document whose own status reads `completed` keeps it (for
`s = "completed"` all writes write `completed`). -/
theorem Evolve.topCompleted {s : String} {σ τ : Store} (h : Evolve s σ τ)
    (hcs : s = "completed") (pid : String) :
    ∀ d, findDoc σ pid = some d → d.status = some "completed" →
      ∃ d', findDoc τ pid = some d' ∧ d'.status = some "completed" := by
  induction h with
  | refl => exact fun d hd ht => ⟨d, hd, ht⟩
  | stamp σ' τ' k dk hdk hnext ih =>
    intro d hd ht
    by_cases hk : pid = k
    · subst hk
      refine ih (stampDoc s dk)
        (by rw [findDoc_setDoc, hdk, if_pos rfl]; rfl) ?_
      show some s = some "completed"
      rw [hcs]
    · exact ih d (by rw [findDoc_setDoc, if_neg hk]; exact hd) ht
  | promote σ' τ' k dk hcs' hdk hnext ih =>
    intro d hd ht
    by_cases hk : pid = k
    · subst hk
      exact ih { dk with status := some "completed" }
        (by rw [findDoc_setDoc, hdk, if_pos rfl]; rfl) rfl
    · exact ih d (by rw [findDoc_setDoc, if_neg hk]; exact hd) ht
  | aggset σ' τ' x pj ps hpj hset hnext ih =>
    intro d hd ht
    by_cases hk : pid = "phases"
    · subst hk
      have hdd : pj = d := by rw [hd] at hpj; exact (Option.some.inj hpj).symm
      subst hdd
      exact ih { pj with phases := ps }
        (by rw [findDoc_setDoc, hd, if_pos rfl]; rfl) ht
    · exact ih d (by rw [findDoc_setDoc, if_neg hk]; exact hd) ht

/-- Key lemma: a non-aggregate document with a not-yet-completed embedded
child either still has one, or its own status has meanwhile been written to
`completed` (the only write that completes embedded entries of such a
document is a stamp, which also writes the own status). -/
theorem Evolve.childrenPending {s : String} {σ τ : Store} (h : Evolve s σ τ)
    (hcs : s = "completed") (pid : String) (hpid : pid ≠ "phases") :
    ∀ d, findDoc σ pid = some d →
      (d.phases.all (fun c => c.status == some "completed")) = false →
      ∀ d', findDoc τ pid = some d' →
        ((d'.phases.all (fun c => c.status == some "completed")) = false ∨
          d'.status = some "completed") := by
  induction h with
  | refl =>
    intro d hd hnc d' hd'
    rw [hd] at hd'
    exact Or.inl ((Option.some.inj hd') ▸ hnc)
  | stamp σ' τ' k dk hdk hnext ih =>
    intro d hd hnc d' hd'
    by_cases hk : pid = k
    · subst hk
      obtain ⟨d'', hd'', ht⟩ := hnext.topCompleted hcs pid (stampDoc s dk)
        (by rw [findDoc_setDoc, hdk, if_pos rfl]; rfl)
        (by show some s = some "completed"; rw [hcs])
      rw [hd'] at hd''
      exact Or.inr ((Option.some.inj hd'') ▸ ht)
    · exact ih d (by rw [findDoc_setDoc, if_neg hk]; exact hd) hnc d' hd'
  | promote σ' τ' k dk hcs' hdk hnext ih =>
    intro d hd hnc d' hd'
    by_cases hk : pid = k
    · subst hk
      obtain ⟨d'', hd'', ht⟩ := hnext.topCompleted hcs pid
        { dk with status := some "completed" }
        (by rw [findDoc_setDoc, hdk, if_pos rfl]; rfl) rfl
      rw [hd'] at hd''
      exact Or.inr ((Option.some.inj hd'') ▸ ht)
    · exact ih d (by rw [findDoc_setDoc, if_neg hk]; exact hd) hnc d' hd'
  | aggset σ' τ' x pj ps hpj hset hnext ih =>
    intro d hd hnc d' hd'
    exact ih d (by rw [findDoc_setDoc, if_neg hpid]; exact hd) hnc d' hd'

/-- "The aggregate's first entry with this id already reads `s`" (stated as:
re-applying the write is the identity). -/
def AggDone (s x : String) (σ : Store) : Prop :=
  ∃ pj, findDoc σ "phases" = some pj ∧
    setFirstStatus pj.phases x s = some pj.phases

/-- An already-written aggregate entry stays written. -/
theorem Evolve.aggDone {s : String} {σ τ : Store} (h : Evolve s σ τ)
    (x : String) (ha : AggDone s x σ) : AggDone s x τ := by
  induction h with
  | refl => exact ha
  | stamp σ' τ' k dk hdk hnext ih =>
    apply ih
    obtain ⟨pj, hpj, hpjset⟩ := ha
    by_cases hk : ("phases" : String) = k
    · subst hk
      have hdd : dk = pj := by rw [hpj] at hdk; exact (Option.some.inj hdk).symm
      subst hdd
      refine ⟨stampDoc s dk, ?_, ?_⟩
      · rw [findDoc_setDoc, hpj, if_pos rfl]; rfl
      · apply setFirstStatus_of_allS
        · rw [setFirstStatus_isSome]
          have hex : (setFirstStatus dk.phases x s).isSome = true := by
            rw [hpjset]; rfl
          rw [setFirstStatus_isSome] at hex
          have : (stampDoc s dk).phases.map SubPhase.id =
              dk.phases.map SubPhase.id := stampDoc_ids s dk
          rw [show ((stampDoc s dk).phases.any (fun p => p.id == x)) =
              (dk.phases.any (fun p => p.id == x)) by
            simp only [List.any_eq, List.mem_map] at *
            simp [stampDoc]]
          exact hex
        · exact (isStamped_stampDoc s dk).2
    · refine ⟨pj, ?_, hpjset⟩
      rw [findDoc_setDoc, if_neg (fun hh => hk hh)]
      exact hpj
  | promote σ' τ' k dk hcs hdk hnext ih =>
    apply ih
    obtain ⟨pj, hpj, hpjset⟩ := ha
    by_cases hk : ("phases" : String) = k
    · subst hk
      have hdd : dk = pj := by rw [hpj] at hdk; exact (Option.some.inj hdk).symm
      subst hdd
      refine ⟨{ dk with status := some "completed" }, ?_, hpjset⟩
      rw [findDoc_setDoc, hpj, if_pos rfl]; rfl
    · refine ⟨pj, ?_, hpjset⟩
      rw [findDoc_setDoc, if_neg (fun hh => hk hh)]
      exact hpj
  | aggset σ' τ' y pj' ps hpj' hset hnext ih =>
    apply ih
    obtain ⟨pj, hpj, hpjset⟩ := ha
    have hdd : pj' = pj := by rw [hpj] at hpj'; exact (Option.some.inj hpj').symm
    subst hdd
    refine ⟨{ pj' with phases := ps }, ?_, ?_⟩
    · rw [findDoc_setDoc, hpj, if_pos rfl]; rfl
    · exact setFirstStatus_pass x y s pj'.phases ps hpjset hset

/-- The wellformedness hypothesis only mentions the key listing, which the
writes preserve. -/
theorem Evolve.goodKeys {s : String} {σ τ : Store} (h : Evolve s σ τ)
    (hg : GoodKeys σ) : GoodKeys τ := by
  induction h with
  | refl => exact hg
  | stamp σ' τ' k dk hdk hnext ih =>
    apply ih
    intro k' hk'
    exact hg k' (by rwa [setDoc_keys] at hk')
  | promote σ' τ' k dk hcs hdk hnext ih =>
    apply ih
    intro k' hk'
    exact hg k' (by rwa [setDoc_keys] at hk')
  | aggset σ' τ' x pj ps hpj hset hnext ih =>
    apply ih
    intro k' hk'
    exact hg k' (by rwa [setDoc_keys] at hk')

/-- Extracting the document at `pid` in an evolved state. -/
theorem Evolve.findDoc_some {s : String} {σ τ : Store} (h : Evolve s σ τ)
    {pid : String} {d : Doc} (hd : findDoc σ pid = some d) :
    ∃ d', findDoc τ pid = some d' ∧
      d'.phases.map SubPhase.id = d.phases.map SubPhase.id := by
  have hids := h.docIds pid
  rw [hd] at hids
  cases hfd : findDoc τ pid with
  | none => rw [hfd] at hids; simp at hids
  | some d' =>
    rw [hfd] at hids
    simp only [Option.map_some', Option.some.injEq] at hids
    exact ⟨d', rfl, hids⟩

/-- Re-running the cascade against any later state of the same run is a
no-op, provided the cascade parent is not the aggregate document. -/
theorem update_parent_rerun :
    ∀ (fuel : Nat) (σ σf : Store) (child : String),
      (∀ D, parentIdOf child = some D → D ≠ "phases") →
      Evolve "completed"
        (update_parent_status_if_all_children_completed fuel σ child) σf →
      update_parent_status_if_all_children_completed fuel σf child = σf := by
  intro fuel
  induction fuel with
  | zero => intro σ σf child hD hEv; rfl
  | succ n ih =>
    intro σ σf child hD hEv
    cases hp : parentIdOf child with
    | none => rw [update_parent_succ_none n σf child hp]
    | some D =>
      have hDne : D ≠ "phases" := hD D hp
      cases hd : findDoc σ D with
      | none =>
        rw [update_parent_succ_nodoc n σ child D hp hd] at hEv
        have hsome := hEv.findDoc_isSome D
        rw [hd] at hsome
        cases hfd : findDoc σf D with
        | none => rw [update_parent_succ_nodoc n σf child D hp hfd]
        | some df => rw [hfd] at hsome; simp at hsome
      | some pd =>
        rw [update_parent_succ_doc n σ child D pd hp hd] at hEv
        by_cases he : pd.phases.isEmpty = true
        · rw [if_pos he] at hEv
          obtain ⟨df, hdf, hids⟩ := hEv.findDoc_some hd
          rw [update_parent_succ_doc n σf child D df hp hdf]
          have : df.phases.isEmpty = true := by
            have hnil : pd.phases = [] := List.isEmpty_iff.mp he
            rw [hnil] at hids
            simp only [List.map_nil, List.map_eq_nil_iff] at hids
            simp [hids]
          rw [if_pos this]
        · rw [if_neg (by simp [he])] at hEv
          by_cases hg : (pd.phases.all (fun c => c.status == some "completed") &&
              !(pd.status == some "completed")) = true
          · rw [if_pos hg] at hEv
            have hEv' : Evolve "completed"
                (σ.setDoc D { pd with status := some "completed" }) σf :=
              (evolve_update_parent _ rfl n _ D).trans hEv
            obtain ⟨df, hdf, htop⟩ := hEv'.topCompleted rfl D _
              (by rw [findDoc_setDoc, hd, if_pos rfl]; rfl) rfl
            rw [update_parent_succ_doc n σf child D df hp hdf]
            by_cases hde : df.phases.isEmpty = true
            · rw [if_pos hde]
            · rw [if_neg (by simp [hde]), if_neg (by simp [htop])]
          · rw [if_neg (by simp only [hg]; exact Bool.false_ne_true)] at hEv
            by_cases hall : pd.phases.all (fun c => c.status == some "completed") = true
            · have htop0 : pd.status = some "completed" := by
                rcases Bool.and_eq_false_iff.mp
                  (Bool.eq_false_iff.mpr hg) with h1 | h1
                · rw [hall] at h1; simp at h1
                · simpa using h1
              obtain ⟨df, hdf, htop⟩ := hEv.topCompleted rfl D pd hd htop0
              rw [update_parent_succ_doc n σf child D df hp hdf]
              by_cases hde : df.phases.isEmpty = true
              · rw [if_pos hde]
              · rw [if_neg (by simp [hde]), if_neg (by simp [htop])]
            · have hall' : pd.phases.all (fun c => c.status == some "completed") = false :=
                Bool.eq_false_iff.mpr hall
              obtain ⟨df, hdf, _⟩ := hEv.findDoc_some hd
              have hdisj := hEv.childrenPending rfl D hDne pd hd hall' df hdf
              rw [update_parent_succ_doc n σf child D df hp hdf]
              by_cases hde : df.phases.isEmpty = true
              · rw [if_pos hde]
              · rcases hdisj with h1 | h1
                · rw [if_neg (by simp [hde]), if_neg (by simp [h1])]
                · rw [if_neg (by simp [hde]), if_neg (by simp [h1])]

/-- The child loop only performs `Evolve` writes. -/
theorem evolve_update_fold (s : String) (n : Nat) :
    ∀ (l : List SubPhase) (τ : Store),
      Evolve s τ (l.foldl (fun ρ p => (update_status n ρ p.id s).1) τ) := by
  intro l
  induction l with
  | nil => intro τ; exact .refl τ
  | cons p rest ihl =>
    intro τ
    exact (evolve_update_status s n τ p.id).trans (ihl _)

/-- Wellformedness survives a rewrite. -/
theorem goodKeys_setDoc (σ : Store) (k : String) (v : Doc)
    (hg : GoodKeys σ) : GoodKeys (σ.setDoc k v) := by
  intro k' hk'
  exact hg k' (by rwa [setDoc_keys] at hk')

/-- Membership tests over sub-phase ids only depend on the id listing. -/
theorem any_id_of_ids (x : String) : ∀ (l m : List SubPhase),
    l.map SubPhase.id = m.map SubPhase.id →
    (l.any (fun p => p.id == x)) = (m.any (fun p => p.id == x)) := by
  intro l
  induction l with
  | nil =>
    intro m h
    have hm : m = [] := List.map_eq_nil_iff.mp h.symm
    subst hm
    rfl
  | cons p rest ih =>
    intro m h
    cases m with
    | nil => simp at h
    | cons q qrest =>
      simp only [List.map_cons, List.cons.injEq] at h
      simp [List.any_cons, h.1, ih qrest h.2]

/-- Re-running the child loop against the final state is a no-op (given the
inductive hypothesis for one `update_status` call at the smaller fuel). -/
theorem foldl_rerun (s : String) (n : Nat)
    (ih : ∀ (σ σf : Store) (pid : String), GoodKeys σ →
        Evolve s (update_status n σ pid s).1 σf →
        update_status n σf pid s = (σf, (update_status n σ pid s).2))
    (σf : Store) :
    ∀ (l lf : List SubPhase) (τ : Store),
      GoodKeys τ →
      lf.map SubPhase.id = l.map SubPhase.id →
      Evolve s (l.foldl (fun ρ p => (update_status n ρ p.id s).1) τ) σf →
      lf.foldl (fun ρ p => (update_status n ρ p.id s).1) σf = σf := by
  intro l
  induction l with
  | nil =>
    intro lf τ hg hids hEv
    have h0 : lf.map SubPhase.id = [] := by simpa using hids
    have hnil : lf = [] := List.map_eq_nil_iff.mp h0
    subst hnil
    rfl
  | cons p rest ihl =>
    intro lf τ hg hids hEv
    cases lf with
    | nil => simp at hids
    | cons q qrest =>
      simp only [List.map_cons, List.cons.injEq] at hids
      obtain ⟨hqid, hrest⟩ := hids
      rw [List.foldl_cons] at hEv
      have hEvp : Evolve s (update_status n τ p.id s).1 σf :=
        (evolve_update_fold s n rest _).trans hEv
      have hq := ih τ σf p.id hg hEvp
      have hstep : (update_status n σf q.id s).1 = σf := by rw [hqid, hq]
      have hg' : GoodKeys (update_status n τ p.id s).1 :=
        (evolve_update_status s n τ p.id).goodKeys hg
      have htail := ihl qrest (update_status n τ p.id s).1 hg' hrest hEv
      rw [List.foldl_cons, hstep, htail]

/-- Re-running `update_status` against any later state of the same run is a
no-op with the same boolean result, on stores where no document's id has the
aggregate as its dotted parent. -/
theorem update_status_rerun (s : String) :
    ∀ (fuel : Nat) (σ σf : Store) (pid : String),
      GoodKeys σ →
      Evolve s (update_status fuel σ pid s).1 σf →
      update_status fuel σf pid s = (σf, (update_status fuel σ pid s).2) := by
  intro fuel
  induction fuel with
  | zero =>
    intro σ σf pid hg hEv
    rfl
  | succ n ih =>
    intro σ σf pid hg hEv
    by_cases hv : s ∈ valid_statuses
    · cases hd : findDoc σ pid with
      | some d =>
        rw [update_status_succ_doc n σ pid s d hv hd] at hEv
        dsimp only at hEv
        have hpidD : ∀ D, parentIdOf pid = some D → D ≠ "phases" := by
          intro D hD heq
          subst heq
          exact hg pid (findDoc_isSome_mem σ pid (by rw [hd]; rfl)) hD
        have hd1 : findDoc (σ.setDoc pid (stampDoc s d)) pid =
            some (stampDoc s d) := by
          rw [findDoc_setDoc, hd, if_pos rfl]; rfl
        have hg1 : GoodKeys (σ.setDoc pid (stampDoc s d)) :=
          goodKeys_setDoc σ pid (stampDoc s d) hg
        by_cases hsc : (s == "completed") = true
        · have hs : s = "completed" := by simpa using hsc
          rw [if_pos hsc] at hEv
          subst hs
          have hEv2 : Evolve "completed"
              ((stampDoc "completed" d).phases.foldl
                (fun ρ p => (update_status n ρ p.id "completed").1)
                (σ.setDoc pid (stampDoc "completed" d))) σf :=
            (evolve_update_parent "completed" rfl n _ pid).trans hEv
          have hEv1 : Evolve "completed" (σ.setDoc pid (stampDoc "completed" d)) σf :=
            (evolve_update_fold "completed" n _ _).trans hEv2
          obtain ⟨df, hdf, hdfst⟩ := hEv1.stamped pid (stampDoc "completed" d)
            hd1 (isStamped_stampDoc "completed" d)
          have hids : df.phases.map SubPhase.id =
              (stampDoc "completed" d).phases.map SubPhase.id := by
            have h2 := hEv1.docIds pid
            rw [hdf, hd1] at h2
            simpa using h2
          rw [update_status_succ_doc n σf pid "completed" df hv hdf]
          rw [stampDoc_of_isStamped "completed" df hdfst,
              setDoc_self σf pid df hdf]
          have hfold := foldl_rerun "completed" n ih σf
            (stampDoc "completed" d).phases df.phases
            (σ.setDoc pid (stampDoc "completed" d)) hg1 hids hEv2
          rw [hfold]
          rw [if_pos (by rfl : (("completed" : String) == "completed") = true)]
          rw [update_parent_rerun n _ σf pid hpidD hEv]
          rw [update_status_succ_doc n σ pid "completed" d hv hd]
        · rw [if_neg (by simpa using hsc)] at hEv
          have hEv1 : Evolve s (σ.setDoc pid (stampDoc s d)) σf :=
            (evolve_update_fold s n _ _).trans hEv
          obtain ⟨df, hdf, hdfst⟩ := hEv1.stamped pid (stampDoc s d)
            hd1 (isStamped_stampDoc s d)
          have hids : df.phases.map SubPhase.id =
              (stampDoc s d).phases.map SubPhase.id := by
            have h2 := hEv1.docIds pid
            rw [hdf, hd1] at h2
            simpa using h2
          rw [update_status_succ_doc n σf pid s df hv hdf]
          rw [stampDoc_of_isStamped s df hdfst, setDoc_self σf pid df hdf]
          have hfold := foldl_rerun s n ih σf
            (stampDoc s d).phases df.phases
            (σ.setDoc pid (stampDoc s d)) hg1 hids hEv
          rw [hfold]
          rw [if_neg (by simpa using hsc)]
          rw [update_status_succ_doc n σ pid s d hv hd]
      | none =>
        have hEvf : Evolve s σ σf :=
          (evolve_update_status s (n + 1) σ pid).trans hEv
        have hdf_none : findDoc σf pid = none := by
          have h2 := hEvf.findDoc_isSome pid
          rw [hd] at h2
          cases hfd : findDoc σf pid with
          | none => rfl
          | some d' => rw [hfd] at h2; simp at h2
        cases hagg : findDoc σ "phases" with
        | none =>
          have hfagg : findDoc σf "phases" = none := by
            have h2 := hEvf.findDoc_isSome "phases"
            rw [hagg] at h2
            cases hfd : findDoc σf "phases" with
            | none => rfl
            | some d' => rw [hfd] at h2; simp at h2
          rw [update_status_succ_noagg n σf pid s hv hdf_none hfagg,
              update_status_succ_noagg n σ pid s hv hd hagg]
        | some pj =>
          cases hset : setFirstStatus pj.phases pid s with
          | none =>
            obtain ⟨pjf, hpjf, hpjids⟩ := hEvf.findDoc_some hagg
            have hsetf : setFirstStatus pjf.phases pid s = none := by
              have h2 : (setFirstStatus pjf.phases pid s).isSome = false := by
                rw [setFirstStatus_isSome,
                    any_id_of_ids pid pjf.phases pj.phases hpjids,
                    ← setFirstStatus_isSome pid s, hset]
                rfl
              exact Option.not_isSome_iff_eq_none.mp (by simp [h2])
            rw [update_status_succ_aggmiss n σf pid s pjf hv hdf_none hpjf hsetf,
                update_status_succ_aggmiss n σ pid s pj hv hd hagg hset]
          | some ps =>
            rw [update_status_succ_agg n σ pid s pj ps hv hd hagg hset] at hEv
            dsimp only at hEv
            have hdone : AggDone s pid (σ.setDoc "phases" { pj with phases := ps }) := by
              refine ⟨{ pj with phases := ps }, ?_, ?_⟩
              · rw [findDoc_setDoc, hagg, if_pos rfl]; rfl
              · exact setFirstStatus_idem pid s pj.phases ps hset
            obtain ⟨pjf, hpjf, hpjfset⟩ := hEv.aggDone pid hdone
            rw [update_status_succ_agg n σf pid s pjf pjf.phases hv hdf_none
                hpjf hpjfset]
            have heta : ({ pjf with phases := pjf.phases } : Doc) = pjf := rfl
            rw [heta, setDoc_self σf "phases" pjf hpjf,
                update_status_succ_agg n σ pid s pj ps hv hd hagg hset]
    · rw [update_status_succ_invalid n σf pid s hv,
          update_status_succ_invalid n σ pid s hv]

/-- C7 (amended): on any store where no document's base filename has the
reserved aggregate name `phases` as its dotted parent, `update_status` is
idempotent: calling it twice with the same present id and valid status leaves
exactly the on-disk state of one call (`nonIdemStore` shows the hypothesis is
needed). -/
theorem update_status_idempotent (fuel : Nat) (σ : Store) (pid s : String)
    (hgood : GoodKeys σ)
    (hpresent : (findDoc σ pid).isSome = true) (hvalid : s ∈ valid_statuses) :
    (update_status fuel (update_status fuel σ pid s).1 pid s).1 =
      (update_status fuel σ pid s).1 := by
  have h := update_status_rerun s fuel σ (update_status fuel σ pid s).1 pid
    hgood (.refl _)
  rw [h]

/-- The concrete store for the C7 witness: a parent with one embedded child,
both with their own documents. -/
def idemStore : Store :=
  { files := [
      ("1", { status := some "pending",
              phases := [ { id := "1.1", status := some "pending" } ] }),
      ("1.1", { status := some "pending" }) ] }

/-- Witness for C7's amended theorem at a concrete store. -/
theorem update_status_idempotent_witness :
    (update_status 5 (update_status 5 idemStore "1" "completed").1
        "1" "completed").1 =
      (update_status 5 idemStore "1" "completed").1 :=
  update_status_idempotent 5 idemStore "1" "completed"
    (by unfold GoodKeys; decide) (by decide) (by decide)

/-- Result of one validation check: `{'passed': ..., 'issues': [...]}`. -/
structure CheckResult where
  passed : Bool := true
  issues : List String := []
  deriving DecidableEq, Repr

/-- A proposed child node of a breakdown result (the fields the validation
engine consumes). -/
structure BPhase where
  id : String := ""
  title : String := ""
  description : String := ""
  deliverables : List String := []
  deriving DecidableEq, Repr

/-- A structured breakdown result: the proposed `phases` list. -/
structure Breakdown where
  phases : List BPhase := []
  deriving DecidableEq, Repr

/-- One link of the strategic context's `parent_chain` (only the `goal` field
is consumed by the validation engine). -/
structure ParentLink where
  goal : String := ""
  deriving DecidableEq, Repr

/-- The `sibling_coordination` section (`coordination_points` is a list of
which only truthiness is consumed; its length is modelled). -/
structure SiblingCoordination where
  has_siblings : Bool := false
  coordination_points : Nat := 0
  deriving DecidableEq, Repr

/-- The `boundary_constraints` section (only `must_not_include` is consumed
by the validation engine). -/
structure BoundaryConstraints where
  must_not_include : List String := []
  deriving DecidableEq, Repr

/-- The `strategic_dna` section (the fields consumed by the validation
engine). -/
structure StrategicDna where
  project_type : String := "unknown"
  complexity : String := "medium"
  architectural_principles : List String := []
  deriving DecidableEq, Repr

/-- The strategic context handed to `validate_breakdown_alignment` (the
fields it consumes). -/
structure Context where
  strategic_dna : StrategicDna := {}
  parent_chain : List ParentLink := []
  sibling_coordination : SiblingCoordination := {}
  boundary_constraints : BoundaryConstraints := {}
  deriving DecidableEq, Repr

/-- `PhaseManager._check_strategic_alignment`: flag each proposed child whose
lowercased description and title share no significant (length > 3) word with
the lowercased last parent-chain goal. -/
def check_strategic_alignment (b : Breakdown) (c : Context) : CheckResult :=
  let parent_goal := lowerStr ((c.parent_chain.getLast?.getD {}).goal)
  let issues := b.phases.filterMap (fun ph =>
    let phase_desc := lowerStr ph.description
    let phase_title := lowerStr ph.title
    if (pySplit parent_goal).any (fun w =>
        decide (3 < w.length) &&
        (strContains phase_desc w || strContains phase_title w)) then none
    else some ("Phase " ++ ph.id ++ " may not align with parent goal: " ++
      strTake parent_goal 50 ++ "..."))
  { passed := issues.isEmpty, issues := issues }

/-- `PhaseManager._check_boundary_compliance`: flag a child for each
`must_not_include` constraint one of whose significant (length > 3) words
occurs in the child's lowercased title-plus-description. -/
def check_boundary_compliance (b : Breakdown) (c : Context) : CheckResult :=
  let must_not := c.boundary_constraints.must_not_include
  let issues := b.phases.flatMap (fun ph =>
    let phase_text := lowerStr (ph.title ++ " " ++ ph.description)
    must_not.filterMap (fun con =>
      if (pySplit (lowerStr con)).any (fun w =>
          decide (3 < w.length) && strContains phase_text w) then
        some ("Phase " ++ ph.id ++ " may violate constraint: " ++ con)
      else none))
  { passed := issues.isEmpty, issues := issues }

/-- `PhaseManager._check_coordination_requirements`: when siblings exist and
there are coordination points, some child description must contain a
coordination/integration/alignment keyword. -/
def check_coordination_requirements (b : Breakdown) (c : Context) : CheckResult :=
  let issues :=
    if c.sibling_coordination.has_siblings then
      let has_focus := b.phases.any (fun ph =>
        strContains (lowerStr ph.description) "coordinate" ||
        strContains (lowerStr ph.description) "integrate" ||
        strContains (lowerStr ph.description) "align")
      if !has_focus && decide (0 < c.sibling_coordination.coordination_points) then
        ["Breakdown should include coordination/integration phases for sibling alignment"]
      else []
    else []
  { passed := issues.isEmpty, issues := issues }

/-- `PhaseManager._check_architectural_consistency`: with declared
principles, each child missing a literal `security` / `performance` mention
(when that principle is declared) is flagged; the check still passes while
the issue count stays within half the number of principles. -/
def check_architectural_consistency (b : Breakdown) (c : Context) : CheckResult :=
  let principles := c.strategic_dna.architectural_principles
  if principles.isEmpty then { passed := true, issues := [] }
  else
    let issues := b.phases.flatMap (fun ph =>
      let phase_text := lowerStr (ph.title ++ " " ++ ph.description)
      (if principles.contains "security" && !strContains phase_text "security" then
        ["Phase " ++ ph.id ++ " should consider security aspects"]
      else []) ++
      (if principles.contains "performance" && !strContains phase_text "performance" then
        ["Phase " ++ ph.id ++ " should consider performance aspects"]
      else []))
    { passed := decide (issues.length ≤ principles.length / 2), issues := issues }

/-- Keyword lists of `PhaseManager._check_expert_coverage`. -/
def performance_keywords : List String :=
  ["performance", "scalability", "optimization", "efficient", "speed",
   "resource", "memory", "cpu"]

/-- Security keywords of the expert-coverage check. -/
def security_keywords : List String :=
  ["security", "auth", "encrypt", "protect", "vulnerability", "safe", "secure"]

/-- Architecture keywords of the expert-coverage check. -/
def architecture_keywords : List String :=
  ["architecture", "structure", "design", "pattern", "maintain", "organize",
   "modular"]

/-- Frontend keywords of the expert-coverage check. -/
def frontend_keywords : List String :=
  ["ui", "ux", "interface", "frontend", "component", "responsive"]

/-- Backend keywords of the expert-coverage check. -/
def backend_keywords : List String :=
  ["api", "backend", "server", "service", "logic", "data"]

/-- API keywords of the expert-coverage check. -/
def api_keywords : List String :=
  ["api", "rest", "endpoint", "contract", "integration", "service"]

/-- Testing keywords of the expert-coverage check. -/
def testing_keywords : List String :=
  ["test", "coverage", "quality", "validation", "verification"]

/-- Database keywords of the expert-coverage check. -/
def database_keywords : List String :=
  ["database", "schema", "query", "data", "storage"]

/-- Conflict-resolution keywords of the expert-coverage check. -/
def conflict_resolution_keywords : List String :=
  ["trade-off", "balance", "compromise", "prioritize", "optimize"]

/-- Risk keywords of the expert-coverage check. -/
def risk_keywords : List String :=
  ["risk", "mitigation", "backup", "fallback", "contingency", "error handling"]

/-- `PhaseManager._check_expert_coverage`: issues for every missing expert
angle over the combined lowercased text of all children; the check fails only
when a core (performance/security/architecture) perspective is missing. -/
def check_expert_coverage (b : Breakdown) (c : Context) : CheckResult :=
  if b.phases.isEmpty then
    { passed := false, issues := ["No sub-phases found for expert analysis"] }
  else
    let project_type := lowerStr c.strategic_dna.project_type
    let complexity := lowerStr c.strategic_dna.complexity
    let all_phase_text := lowerStr (joinSpace (b.phases.map (fun ph =>
      ph.title ++ " " ++ ph.description ++ " " ++ joinSpace ph.deliverables)))
    let hasKw := fun (ks : List String) => ks.any (strContains all_phase_text)
    let issues :=
      (if !hasKw performance_keywords then
        ["Performance Expert perspective missing - no performance/scalability considerations found"]
      else []) ++
      (if !hasKw security_keywords then
        ["Security Expert perspective missing - no security considerations found"]
      else []) ++
      (if !hasKw architecture_keywords then
        ["Architecture Expert perspective missing - no architectural considerations found"]
      else []) ++
      (if (strContains project_type "web" || strContains project_type "app") &&
          !(hasKw frontend_keywords || hasKw backend_keywords) then
        ["Domain Expert perspective missing - no frontend/backend considerations found"]
      else []) ++
      (if strContains project_type "api" && !hasKw api_keywords then
        ["API Expert perspective missing - no API design considerations found"]
      else []) ++
      (if strContains complexity "enterprise" && !hasKw testing_keywords then
        ["Testing Expert perspective missing - enterprise projects require comprehensive testing strategy"]
      else []) ++
      (if strContains complexity "enterprise" && !hasKw database_keywords then
        ["Database Expert perspective missing - enterprise projects typically require database considerations"]
      else []) ++
      (if !hasKw conflict_resolution_keywords then
        ["Expert conflict resolution not evident - no indication of trade-off decisions or prioritization"]
      else []) ++
      (if !hasKw risk_keywords then
        ["Risk mitigation missing - experts typically identify and address potential risks"]
      else [])
    let critical_issues := issues.filter (fun i =>
      strContains i "Performance Expert" || strContains i "Security Expert" ||
      strContains i "Architecture Expert")
    { passed := critical_issues.isEmpty, issues := issues }

/-- `PhaseManager._calculate_quality_score`: base score from the four
non-expert checks (`(passed/4)*80`, exact in floats), minus a penalty of 5
per issue across those same four checks capped at 20, floored at 0. -/
def calculate_quality_score (sa bc cc ac : CheckResult) : Int :=
  let checks := [sa.passed, bc.passed, cc.passed, ac.passed]
  let passed_checks : Int := (checks.filter id).length
  let base_score : Int := passed_checks * 80 / 4
  let total_issues : Int :=
    ((sa.issues.length + bc.issues.length + cc.issues.length + ac.issues.length : Nat) : Int)
  let issue_penalty : Int := min (total_issues * 5) 20
  max 0 (base_score - issue_penalty)

/-- `PhaseManager._generate_recommendations`: concatenate the issues of every
failed check (in dict insertion order), or one positive message. -/
def generate_recommendations (sa bc cc ac ec : CheckResult) : List String :=
  let recs :=
    (if !sa.passed then sa.issues else []) ++
    (if !bc.passed then bc.issues else []) ++
    (if !cc.passed then cc.issues else []) ++
    (if !ac.passed then ac.issues else []) ++
    (if !ec.passed then ec.issues else [])
  if recs.isEmpty then
    ["Breakdown appears well-aligned with strategic context and expert perspectives"]
  else recs

/-- The dict returned by `validate_breakdown_alignment`. -/
structure Validation where
  is_valid : Bool
  strategic_alignment : CheckResult
  boundary_compliance : CheckResult
  coordination_check : CheckResult
  architecture_consistency : CheckResult
  expert_coverage : CheckResult
  overall_score : Int
  recommendations : List String
  deriving DecidableEq, Repr

/-- `PhaseManager.validate_breakdown_alignment`: run the five checks,
`is_valid` is their conjunction, the score comes from
`calculate_quality_score` (which reads only the four non-expert checks). -/
def validate_breakdown_alignment (b : Breakdown) (c : Context) : Validation :=
  let sa := check_strategic_alignment b c
  let bc := check_boundary_compliance b c
  let cc := check_coordination_requirements b c
  let ac := check_architectural_consistency b c
  let ec := check_expert_coverage b c
  { is_valid := sa.passed && bc.passed && cc.passed && ac.passed && ec.passed,
    strategic_alignment := sa, boundary_compliance := bc,
    coordination_check := cc, architecture_consistency := ac,
    expert_coverage := ec,
    overall_score := calculate_quality_score sa bc cc ac,
    recommendations := generate_recommendations sa bc cc ac ec }

/-- Number of passed checks among all five of a validation outcome. -/
def passedFive (v : Validation) : Nat :=
  (([v.strategic_alignment.passed, v.boundary_compliance.passed,
     v.coordination_check.passed, v.architecture_consistency.passed,
     v.expert_coverage.passed]).filter id).length

/-- Total issue strings across all five checks of a validation outcome. -/
def issuesFive (v : Validation) : Nat :=
  v.strategic_alignment.issues.length + v.boundary_compliance.issues.length +
  v.coordination_check.issues.length + v.architecture_consistency.issues.length +
  v.expert_coverage.issues.length

/-- The claimed five-check score formula:
`80 * (passed/5) - min(20, 5 * issues)`, floored at 0. -/
def claimScoreFive (v : Validation) : Int :=
  max 0 ((passedFive v : Int) * 80 / 5 - min 20 (5 * (issuesFive v : Int)))

/-- Number of passed checks among the four that the code actually scores. -/
def passedFour (v : Validation) : Nat :=
  (([v.strategic_alignment.passed, v.boundary_compliance.passed,
     v.coordination_check.passed, v.architecture_consistency.passed]).filter id).length

/-- Total issue strings across those same four checks. -/
def issuesFour (v : Validation) : Nat :=
  v.strategic_alignment.issues.length + v.boundary_compliance.issues.length +
  v.coordination_check.issues.length + v.architecture_consistency.issues.length

/-- Context used by the C1 counterexample: a lone parent goal, no siblings,
no constraints, no principles. -/
def ctxScore : Context :=
  { parent_chain := [ { goal := "Build solid foundation platform" } ] }

/-- Breakdown used by the C1 counterexample: aligned with the goal and
covering performance and security but no architecture keyword, so only the
expert-coverage check fails (with three issue strings). -/
def bdScore : Breakdown :=
  { phases := [ { id := "1.1", title := "Foundation work",
                  description := "Build the solid foundation platform with performance and security in mind" } ] }

/-- C1 (counterexample): on `bdScore`/`ctxScore` exactly the expert check
fails with 3 issues, yet the score is 80 — the claimed five-check formula
would give `max 0 (4*80/5 - min 20 15) = 49`. -/
theorem validate_score_ignores_expert_cex :
    (validate_breakdown_alignment bdScore ctxScore).expert_coverage.passed = false ∧
    passedFive (validate_breakdown_alignment bdScore ctxScore) = 4 ∧
    issuesFive (validate_breakdown_alignment bdScore ctxScore) = 3 ∧
    (validate_breakdown_alignment bdScore ctxScore).overall_score = 80 ∧
    claimScoreFive (validate_breakdown_alignment bdScore ctxScore) = 49 ∧
    (validate_breakdown_alignment bdScore ctxScore).overall_score ≠
      claimScoreFive (validate_breakdown_alignment bdScore ctxScore) := by
  refine ⟨by decide, by decide, by decide, by decide, by decide, by decide⟩

/-- C1 (amended): every validation outcome's `overall_score` equals
`80 * (passed non-expert checks / 4) - min(20, 5 * issues across those four
checks)`, floored at 0 — expert coverage affects neither term — and
`is_valid` is the conjunction of all five checks. -/
theorem validate_score_formula (b : Breakdown) (c : Context) :
    (validate_breakdown_alignment b c).overall_score =
      max 0 (80 * (passedFour (validate_breakdown_alignment b c) : Int) / 4 -
        min 20 (5 * (issuesFour (validate_breakdown_alignment b c) : Int))) ∧
    ((validate_breakdown_alignment b c).is_valid = true ↔
      ((validate_breakdown_alignment b c).strategic_alignment.passed = true ∧
       (validate_breakdown_alignment b c).boundary_compliance.passed = true ∧
       (validate_breakdown_alignment b c).coordination_check.passed = true ∧
       (validate_breakdown_alignment b c).architecture_consistency.passed = true ∧
       (validate_breakdown_alignment b c).expert_coverage.passed = true)) := by
  constructor
  · show calculate_quality_score _ _ _ _ = _
    simp only [calculate_quality_score, passedFour, issuesFour,
      validate_breakdown_alignment]
    omega
  · simp [validate_breakdown_alignment, and_assoc]

/-- Context used by the C6 counterexample. -/
def ctxFlip : Context :=
  { parent_chain := [ { goal := "Build solid foundation platform" } ] }

/-- Breakdown on which all five checks pass (the word `design` covers the
architecture-expert keyword; the conflict/risk advisory issues are recorded
but not decisive). -/
def bdFlipPass : Breakdown :=
  { phases := [ { id := "1.1", title := "Foundation work",
                  description := "Build the solid foundation platform design with performance and security in mind" } ] }

/-- The same breakdown minus the `design` keyword: only the expert-coverage
check flips to failing, gaining its missing-architecture issue. -/
def bdFlipFail : Breakdown :=
  { phases := [ { id := "1.1", title := "Foundation work",
                  description := "Build the solid foundation platform with performance and security in mind" } ] }

/-- C6 (counterexample): flipping exactly the expert-coverage check from
passing to failing (its accompanying issue strings included) leaves
`overall_score` unchanged — no strict decrease. -/
theorem expert_flip_leaves_score_cex :
    (validate_breakdown_alignment bdFlipPass ctxFlip).is_valid = true ∧
    (validate_breakdown_alignment bdFlipFail ctxFlip).expert_coverage.passed = false ∧
    (validate_breakdown_alignment bdFlipFail ctxFlip).strategic_alignment =
      (validate_breakdown_alignment bdFlipPass ctxFlip).strategic_alignment ∧
    (validate_breakdown_alignment bdFlipFail ctxFlip).boundary_compliance =
      (validate_breakdown_alignment bdFlipPass ctxFlip).boundary_compliance ∧
    (validate_breakdown_alignment bdFlipFail ctxFlip).coordination_check =
      (validate_breakdown_alignment bdFlipPass ctxFlip).coordination_check ∧
    (validate_breakdown_alignment bdFlipFail ctxFlip).architecture_consistency =
      (validate_breakdown_alignment bdFlipPass ctxFlip).architecture_consistency ∧
    (validate_breakdown_alignment bdFlipFail ctxFlip).overall_score =
      (validate_breakdown_alignment bdFlipPass ctxFlip).overall_score := by
  refine ⟨by decide, by decide, by decide, by decide, by decide, by decide, by decide⟩

/-- C6 (amended): starting from an all-passing outcome, flipping any one of
the four score-counted checks (strategic alignment, boundary compliance,
coordination, architectural consistency) to failing with at least one issue
string strictly decreases `overall_score` by at least 5; the expert-coverage
check does not participate in the score. -/
theorem flip_counted_check_decreases_score
    (sa bc cc ac ec c' : CheckResult)
    (hall : sa.passed = true ∧ bc.passed = true ∧ cc.passed = true ∧
            ac.passed = true ∧ ec.passed = true)
    (hfail : c'.passed = false) (hiss : c'.issues ≠ []) :
    calculate_quality_score c' bc cc ac + 5 ≤ calculate_quality_score sa bc cc ac ∧
    calculate_quality_score sa c' cc ac + 5 ≤ calculate_quality_score sa bc cc ac ∧
    calculate_quality_score sa bc c' ac + 5 ≤ calculate_quality_score sa bc cc ac ∧
    calculate_quality_score sa bc cc c' + 5 ≤ calculate_quality_score sa bc cc ac := by
  obtain ⟨h1, h2, h3, h4, _⟩ := hall
  have hic : 0 < c'.issues.length := List.length_pos.mpr hiss
  refine ⟨?_, ?_, ?_, ?_⟩ <;>
    simp [calculate_quality_score, h1, h2, h3, h4, hfail] <;> omega

/-- Witness for C6's amended theorem at a concrete all-passing outcome. -/
theorem flip_counted_check_decreases_score_witness :
    calculate_quality_score { passed := false, issues := ["issue"] } {} {} {} + 5 ≤
      calculate_quality_score {} {} {} {} :=
  (flip_counted_check_decreases_score {} {} {} {} {}
    { passed := false, issues := ["issue"] }
    ⟨rfl, rfl, rfl, rfl, rfl⟩ rfl (by decide)).1

/-- `worker_monitor.WorkerState`. -/
inductive WorkerState where
  | IDLE
  | ACTIVE
  | COMPLETED
  | ERROR
  deriving DecidableEq, Repr

/-- One registered worker slot: `{'status': ..., 'state': ..., 'last_update': ...}`
(timestamps are abstracted to naturals; `time.time()` is passed in as the
`now` argument of the mutating operations). -/
structure WorkerSlot where
  status : String
  state : WorkerState
  last_update : Nat
  deriving DecidableEq, Repr

/-- `WorkerMonitor`: the `max_workers` bound and the `_workers` registry
keyed by the (Python `int`) worker id. -/
structure WorkerMonitor where
  max_workers : Int
  workers : List (Int × WorkerSlot)
  deriving DecidableEq, Repr

/-- `WorkerMonitor.__init__`: slots `1..max_workers`, all idle. -/
def initMonitor (max_workers : Nat) (t0 : Nat) : WorkerMonitor :=
  { max_workers := max_workers,
    workers := (List.range max_workers).map
      (fun i => (((i : Int) + 1), ⟨"IDLE", .IDLE, t0⟩)) }

/-- `WorkerMonitor.update_worker`: an unregistered `worker_id` only prints an
error and returns; otherwise the slot's text, state and timestamp are set. -/
def update_worker (m : WorkerMonitor) (worker_id : Int) (status : String)
    (state : WorkerState) (now : Nat) : WorkerMonitor :=
  if m.workers.any (fun kv => kv.1 == worker_id) then
    { m with workers := m.workers.map (fun kv =>
        if kv.1 == worker_id then (kv.1, ⟨status, state, now⟩) else kv) }
  else m

/-- `WorkerMonitor.set_worker_idle`. -/
def set_worker_idle (m : WorkerMonitor) (worker_id : Int) (now : Nat) : WorkerMonitor :=
  update_worker m worker_id "IDLE" .IDLE now

/-- `WorkerMonitor.set_worker_completed` (default message). -/
def set_worker_completed (m : WorkerMonitor) (worker_id : Int)
    (message : String := "[COMPLETED]") (now : Nat := 0) : WorkerMonitor :=
  update_worker m worker_id message .COMPLETED now

/-- `WorkerMonitor.set_worker_error`. -/
def set_worker_error (m : WorkerMonitor) (worker_id : Int)
    (error_message : String) (now : Nat) : WorkerMonitor :=
  update_worker m worker_id ("[ERROR] " ++ error_message) .ERROR now

/-- C10: on any monitor whose registered slots all lie in `1..max_workers`
(as created by `__init__` and preserved by every update), an out-of-range
`worker_id` makes `update_worker` — and hence the three convenience setters —
return without touching any slot. -/
theorem update_worker_out_of_range (m : WorkerMonitor) (worker_id : Int)
    (hkeys : ∀ kv ∈ m.workers, 1 ≤ kv.1 ∧ kv.1 ≤ m.max_workers)
    (hid : worker_id < 1 ∨ m.max_workers < worker_id) :
    (∀ status state now, update_worker m worker_id status state now = m) ∧
    (∀ now, set_worker_idle m worker_id now = m) ∧
    (∀ message now, set_worker_completed m worker_id message now = m) ∧
    (∀ msg now, set_worker_error m worker_id msg now = m) := by
  have hmem : m.workers.any (fun kv => kv.1 == worker_id) = false := by
    rw [Bool.eq_false_iff]
    intro h
    obtain ⟨kv, hkv, heq⟩ := List.any_eq_true.mp h
    obtain ⟨h1, h2⟩ := hkeys kv hkv
    have : kv.1 = worker_id := by simpa using heq
    omega
  have hupd : ∀ status state now, update_worker m worker_id status state now = m := by
    intro status state now
    simp [update_worker, hmem]
  exact ⟨hupd, fun now => hupd _ _ _, fun message now => hupd _ _ _,
    fun msg now => hupd _ _ _⟩

/-- Witness for C10: a freshly created two-slot monitor ignores updates to
worker id `3` (and to id `0`). -/
theorem update_worker_out_of_range_witness :
    update_worker (initMonitor 2 0) 3 "busy" .ACTIVE 7 = initMonitor 2 0 ∧
    set_worker_error (initMonitor 2 0) 3 "boom" 9 = initMonitor 2 0 :=
  ⟨((update_worker_out_of_range (initMonitor 2 0) 3 (by decide) (by decide)).1) "busy" .ACTIVE 7,
    ((update_worker_out_of_range (initMonitor 2 0) 3 (by decide) (by decide)).2.2.2) "boom" 9⟩

end GassAgent
